import Mathlib

/-!
Shallow embedding of `src/dynamic-state.service.ts` (class `DynamicStateService`).

The service owns a keyed store (`#stateValue : Map<string, DT>`) and a single
update notifier (`#stateValueUpdated$ : Subject<string>`).  All operations are
synchronous, so the service is modelled as a state machine over traces of
operations.  A JavaScript value that may be `undefined` is modelled as
`Option V` with `none` standing for `undefined`; a store entry therefore has
type `Option V`, so that the possibility of storing `undefined` is expressible
(JS `Map` can hold `undefined`) and the invariant that the code never does so
is a real statement.

Notifier deliveries are recorded as pairs `(name, state-at-delivery)`: a
`Subject.next(name)` delivers synchronously, and the derived-stream pipeline
(`filter(=== name)`, `startWith(name)`, `filter(hasStateValue)`,
`map(() => stateValue(name))`) re-reads the store at delivery time, which is
the state just after the write that triggered the notification.  After
`complete()` a `Subject` delivers nothing, modelled by the `closed` flag
gating deliveries.
-/

namespace DynState

/-- JavaScript values for claims that distinguish reference identity from
structural equality: a primitive carries its value, an object carries a
reference identity `id` and a structural `content`. -/
inductive JsVal where
  | prim (n : Int)
  | ref (id : Nat) (content : Int)
deriving DecidableEq, Repr

/-- `Object.is`: primitives compare by value, objects by reference identity. -/
def objectIs : JsVal → JsVal → Bool
  | .prim a, .prim b => a == b
  | .ref i _, .ref j _ => i == j
  | _, _ => false

/-- Structural (deep) equality on `JsVal`: objects compare by content. -/
def structEq : JsVal → JsVal → Bool
  | .prim a, .prim b => a == b
  | .ref _ a, .ref _ b => a == b
  | _, _ => false

/-- The store as an association list with `Map` semantics (unique keys in any
reachable state).  An entry value `none` would be a stored `undefined`. -/
abbrev Store (V : Type) : Type := List (String × Option V)

/-- `Map.prototype.get`-style lookup returning the stored entry if the key is
present (`none` = key absent). -/
def storeGet {V : Type} : Store V → String → Option (Option V)
  | [], _ => none
  | (k, w) :: rest, name => if k = name then some w else storeGet rest name

/-- `Map.prototype.set`: overwrite in place if present, else append. -/
def storeSet {V : Type} : Store V → String → Option V → Store V
  | [], name, v => [(name, v)]
  | (k, w) :: rest, name, v =>
    if k = name then (k, v) :: rest else (k, w) :: storeSet rest name v

/-- `Map.prototype.delete`: remove the entry for the key if present. -/
def storeDelete {V : Type} : Store V → String → Store V
  | [], _ => []
  | (k, w) :: rest, name => if k = name then rest else (k, w) :: storeDelete rest name

/-- Service state: the keyed store and whether the update notifier subject has
been completed (`closed = true` after teardown). -/
structure Svc (V : Type) where
  store : Store V
  closed : Bool
deriving DecidableEq

/-- Freshly constructed service: empty store, open notifier. -/
def initSvc {V : Type} : Svc V := ⟨[], false⟩

/-- `hasStateValue(name)`: `this.#stateValue.has(name)`. -/
def hasStateValue {V : Type} (s : Svc V) (name : String) : Bool :=
  (storeGet s.store name).isSome

/-- `stateValue(name, value?)`: the get-or-set accessor.  With `value`
undefined (`none`) it returns `this.#stateValue.get(name)` and changes
nothing; with a defined `value` it writes the store, fires
`this.#stateValueUpdated$.next(name)` (delivered only while the subject is not
completed) and returns `undefined`.  Result: (returned value, new state,
notifier deliveries paired with the state at delivery time). -/
def stateValue {V : Type} (s : Svc V) (name : String) (value : Option V) :
    Option V × Svc V × List (String × Svc V) :=
  match value with
  | none => ((storeGet s.store name).join, s, [])
  | some v =>
    let s2 : Svc V := { s with store := storeSet s.store name (some v) }
    (none, s2, if s.closed then [] else [(name, s2)])

/-- `removeStateValue(name)`: `this.#stateValue.delete(name)`; no notification. -/
def removeStateValue {V : Type} (s : Svc V) (name : String) : Svc V :=
  { s with store := storeDelete s.store name }

/-- `clearStateValues()`: `this.#stateValue.clear()`; no notification. -/
def clearStateValues {V : Type} (s : Svc V) : Svc V :=
  { s with store := [] }

/-- First half of the `DestroyRef.onDestroy` teardown:
`this.#stateValueUpdated$.complete()`. -/
def completeNotifier {V : Type} (s : Svc V) : Svc V :=
  { s with closed := true }

/-- Operations a client can perform on the service.  `mkStream` is the
construction of `stateValue$(name, opts)` (buffer already merged with its
default); its only state effect is the optional seeding of `initialValue`. -/
inductive Op (V : Type) where
  | getOrSet (name : String) (value : Option V)
  | mkStream (name : String) (buffer : Nat) (initialValue : Option V)
  | remove (name : String)
  | clear
  | teardown
deriving DecidableEq

/-- One step of the service: the successor state and the notifier deliveries
(with their delivery-time states) the operation produced.  `teardown` is the
`onDestroy` callback: complete the notifier first, then clear the store. -/
def step {V : Type} (s : Svc V) : Op V → Svc V × List (String × Svc V)
  | .getOrSet name value =>
    let r := stateValue s name value
    (r.2.1, r.2.2)
  | .mkStream name _ iv =>
    if iv.isSome && !(hasStateValue s name) then
      let r := stateValue s name iv
      (r.2.1, r.2.2)
    else (s, [])
  | .remove name => (removeStateValue s name, [])
  | .clear => (clearStateValues s, [])
  | .teardown => (clearStateValues (completeNotifier s), [])

/-- Run a trace of operations. -/
def runOps {V : Type} (s : Svc V) : List (Op V) → Svc V
  | [] => s
  | op :: ops => runOps (step s op).1 ops

/-- All notifier deliveries along a trace, each paired with the service state
at the moment of delivery. -/
def deliveries {V : Type} (s : Svc V) : List (Op V) → List (String × Svc V)
  | [] => []
  | op :: ops => (step s op).2 ++ deliveries (step s op).1 ops

/-- What one pipeline trigger (synthetic `startWith` or a matching notifier
delivery) emits in state `st`: `filter(() => hasStateValue(name))` then
`map(() => stateValue(name))`, a fresh read of the store. -/
def triggerEmit {V : Type} (st : Svc V) (name : String) : List (Option V) :=
  if hasStateValue st name then [(storeGet st.store name).join] else []

/-- Emissions produced by a list of notifier deliveries after
`filter(stateUpdated => stateUpdated === name)`. -/
def emitsFor {V : Type} (name : String) : List (String × Svc V) → List (Option V)
  | [] => []
  | p :: ps => (if p.1 = name then triggerEmit p.2 name else []) ++ emitsFor name ps

/-- Emissions received by a subscriber of a freshly constructed
`stateValue$(name)` stream (default or positive buffer): it attaches in state
`s` (the `startWith(name)` trigger immediately re-checks the store), then
observes the deliveries of the subsequent trace `ops`. -/
def subEmits {V : Type} (s : Svc V) (name : String) (ops : List (Op V)) :
    List (Option V) :=
  triggerEmit s name ++ emitsFor name (deliveries s ops)

/-- Application of the operator list `stateValue$` passes to `.pipe(...)`.
The last element is `opts.buffer ? shareReplay(...) : undefined`; rxjs's
`pipeFromArray` reduces the array by calling each element on the source, so a
buffer of `0` (falsy) puts `undefined` in the array and the reduction throws
`TypeError` when it calls it.  A non-zero buffer yields a valid pipeline. -/
def pipeOperators (buffer : Nat) : Except String Unit :=
  if buffer ≠ 0 then Except.ok () else Except.error "TypeError: fn is not a function"

/-- Construction of `stateValue$(name, opts)`: merge the default buffer of 1,
seed `initialValue` when provided and the slot is absent (this runs before the
pipe is built), then build the operator pipeline.  Result: (pipeline build
outcome, new state, notifier deliveries of the seeding). -/
def stateValueStream {V : Type} (s : Svc V) (name : String) (buffer : Option Nat)
    (iv : Option V) : Except String Unit × Svc V × List (String × Svc V) :=
  let b := buffer.getD 1
  let r := step s (.mkStream name b iv)
  (pipeOperators b, r.1, r.2)

/-- `distinctUntilChanged` tail: drop an element equal (per `eq`) to the last
delivered one. -/
def ducAux {α : Type} (eq : α → α → Bool) : α → List α → List α
  | _, [] => []
  | prev, y :: ys => if eq prev y then ducAux eq prev ys else y :: ducAux eq y ys

/-- `distinctUntilChanged` over a delivered-emission list. -/
def distinctList {α : Type} (eq : α → α → Bool) : List α → List α
  | [] => []
  | x :: xs => x :: ducAux eq x xs

/-- Lift an equality function on values to the `Option V` emissions of the
model (`Object.is(undefined, undefined)` is `true`). -/
def optionEqFn {V : Type} (eq : V → V → Bool) : Option V → Option V → Bool
  | some a, some b => eq a b
  | none, none => true
  | _, _ => false

/-- Emissions received by a subscriber of `stateValueDistinct$(name, opts)`:
the `stateValue$` emissions piped through
`distinctUntilChanged(opts.distinctFn ?? defaultDistinctFn)`, where the
default compares with `Object.is` (here, the ambient identity `objIs`). -/
def stateValueDistinctEmits {V : Type} (objIs : V → V → Bool)
    (distinctFn : Option (V → V → Bool)) (s : Svc V) (name : String)
    (ops : List (Op V)) : List (Option V) :=
  distinctList (optionEqFn (distinctFn.getD objIs)) (subEmits s name ops)

/-- Does the operation set (directly, or by seeding) the slot `name`? -/
def setsFor {V : Type} (name : String) : Op V → Bool
  | .getOrSet n (some _) => n == name
  | .mkStream n _ (some _) => n == name
  | _ => false

/-- Is the operation the teardown? -/
def isTeardown {V : Type} : Op V → Bool
  | .teardown => true
  | _ => false

/-- No entry of the store is a stored `undefined`. -/
def storeNoUndef {V : Type} (st : Store V) : Bool :=
  st.all (fun p => p.2.isSome)

end DynState

namespace DynState

theorem hasStateValue_false_iff {V : Type} (s : Svc V) (name : String) :
    hasStateValue s name = false ↔ storeGet s.store name = none := by
  unfold hasStateValue
  cases storeGet s.store name <;> simp

theorem storeGet_storeSet_self {V : Type} (st : Store V) (n : String) (v : Option V) :
    storeGet (storeSet st n v) n = some v := by
  induction st with
  | nil => simp [storeSet, storeGet]
  | cons p rest ih =>
    obtain ⟨k, w⟩ := p
    by_cases h : k = n
    · simp [storeSet, storeGet, h]
    · simp [storeSet, storeGet, h, ih]

theorem storeGet_storeSet_ne {V : Type} (st : Store V) (n m : String) (v : Option V)
    (h : ¬ n = m) : storeGet (storeSet st n v) m = storeGet st m := by
  induction st with
  | nil => simp [storeSet, storeGet, h]
  | cons p rest ih =>
    obtain ⟨k, w⟩ := p
    by_cases hk : k = n
    · subst hk
      simp [storeSet, storeGet, h]
    · by_cases hm : k = m
      · simp [storeSet, storeGet, hk, hm, Ne.symm h]
      · simp [storeSet, storeGet, hk, hm, ih]

theorem storeDelete_of_absent {V : Type} (st : Store V) (n : String)
    (h : storeGet st n = none) : storeDelete st n = st := by
  induction st with
  | nil => rfl
  | cons p rest ih =>
    obtain ⟨k, w⟩ := p
    by_cases hk : k = n
    · simp [storeGet, hk] at h
    · simp [storeGet, hk] at h
      simp [storeDelete, hk, ih h]

theorem storeGet_storeDelete_ne {V : Type} (st : Store V) (n m : String)
    (h : ¬ n = m) : storeGet (storeDelete st n) m = storeGet st m := by
  induction st with
  | nil => rfl
  | cons p rest ih =>
    obtain ⟨k, w⟩ := p
    by_cases hk : k = n
    · subst hk
      have hm : ¬ k = m := h
      simp [storeDelete, storeGet, hm]
    · by_cases hm : k = m
      · simp [storeDelete, storeGet, hk, hm, Ne.symm h]
      · simp [storeDelete, storeGet, hk, hm, ih]

theorem runOps_append {V : Type} (s : Svc V) (xs ys : List (Op V)) :
    runOps s (xs ++ ys) = runOps (runOps s xs) ys := by
  induction xs generalizing s with
  | nil => rfl
  | cons op rest ih => simp [runOps, ih]

theorem deliveries_append {V : Type} (s : Svc V) (xs ys : List (Op V)) :
    deliveries s (xs ++ ys) = deliveries s xs ++ deliveries (runOps s xs) ys := by
  induction xs generalizing s with
  | nil => rfl
  | cons op rest ih => simp [deliveries, runOps, ih]

theorem emitsFor_append {V : Type} (name : String) (a b : List (String × Svc V)) :
    emitsFor name (a ++ b) = emitsFor name a ++ emitsFor name b := by
  induction a with
  | nil => rfl
  | cons p rest ih => simp [emitsFor, ih]

theorem step_closed_of_not_teardown {V : Type} (s : Svc V) (op : Op V)
    (h : isTeardown op = false) : (step s op).1.closed = s.closed := by
  cases op with
  | getOrSet n value => cases value <;> rfl
  | mkStream n b iv =>
    cases iv with
    | none => rfl
    | some v =>
      by_cases hs : hasStateValue s n <;> simp [step, stateValue, hs]
  | remove n => rfl
  | clear => rfl
  | teardown => simp [isTeardown] at h

theorem step_closed_mono {V : Type} (s : Svc V) (op : Op V)
    (h : s.closed = true) : (step s op).1.closed = true := by
  cases op with
  | getOrSet n value => cases value <;> simp [step, stateValue, h]
  | mkStream n b iv =>
    cases iv with
    | none => exact h
    | some v =>
      by_cases hs : hasStateValue s n <;> simp [step, stateValue, hs, h]
  | remove n => exact h
  | clear => exact h
  | teardown => rfl

theorem step_deliveries_of_closed {V : Type} (s : Svc V) (op : Op V)
    (h : s.closed = true) : (step s op).2 = [] := by
  cases op with
  | getOrSet n value => cases value <;> simp [step, stateValue, h]
  | mkStream n b iv =>
    cases iv with
    | none => rfl
    | some v =>
      by_cases hs : hasStateValue s n <;> simp [step, stateValue, hs, h]
  | remove n => rfl
  | clear => rfl
  | teardown => rfl

theorem deliveries_of_closed {V : Type} (s : Svc V) (ops : List (Op V))
    (h : s.closed = true) : deliveries s ops = [] := by
  induction ops generalizing s with
  | nil => rfl
  | cons op rest ih =>
    simp [deliveries, step_deliveries_of_closed s op h, ih _ (step_closed_mono s op h)]

theorem runOps_closed_of_no_teardown {V : Type} (s : Svc V) (ops : List (Op V))
    (h : (ops.all fun op => !(isTeardown op)) = true) :
    (runOps s ops).closed = s.closed := by
  induction ops generalizing s with
  | nil => rfl
  | cons op rest ih =>
    rw [List.all_cons, Bool.and_eq_true] at h
    rw [runOps, ih _ h.2, step_closed_of_not_teardown s op (by simpa using h.1)]

theorem quiet_step {V : Type} {name : String} {s : Svc V} {op : Op V}
    (hq : setsFor name op = false) (h : hasStateValue s name = false) :
    emitsFor name (step s op).2 = [] ∧ hasStateValue (step s op).1 name = false := by
  cases op with
  | getOrSet n value =>
    cases value with
    | none => exact ⟨rfl, h⟩
    | some v =>
      have hn : ¬ n = name := by simpa [setsFor] using hq
      constructor
      · by_cases hc : s.closed <;> simp [step, stateValue, emitsFor, hc, hn]
      · simpa [step, stateValue, hasStateValue, storeGet_storeSet_ne _ _ _ _ hn] using h
  | mkStream n b iv =>
    cases iv with
    | none => exact ⟨rfl, h⟩
    | some v =>
      have hn : ¬ n = name := by simpa [setsFor] using hq
      by_cases hs : hasStateValue s n
      · simp [step, hs, emitsFor, h]
      · have hs2 : (storeGet s.store n).isSome = false := by
          simpa [hasStateValue] using hs
        constructor
        · by_cases hc : s.closed <;>
            simp [step, stateValue, emitsFor, hasStateValue, hs2, hc, hn]
        · simpa [step, stateValue, hasStateValue, hs2,
            storeGet_storeSet_ne _ _ _ _ hn] using h
  | remove n =>
    refine ⟨rfl, ?_⟩
    by_cases hn : n = name
    · subst hn
      rw [hasStateValue_false_iff] at h
      simp [step, removeStateValue, hasStateValue, storeDelete_of_absent _ _ h, h]
    · simpa [step, removeStateValue, hasStateValue,
        storeGet_storeDelete_ne _ _ _ hn] using h
  | clear => exact ⟨rfl, by simp [step, clearStateValues, hasStateValue, storeGet]⟩
  | teardown =>
    exact ⟨rfl, by simp [step, clearStateValues, completeNotifier, hasStateValue, storeGet]⟩

theorem quiet_trace {V : Type} (name : String) (ops : List (Op V)) :
    ∀ (s : Svc V), hasStateValue s name = false →
      (ops.all fun op => !(setsFor name op)) = true →
      emitsFor name (deliveries s ops) = [] ∧
        hasStateValue (runOps s ops) name = false := by
  induction ops with
  | nil => exact fun s h _ => ⟨rfl, h⟩
  | cons op rest ih =>
    intro s h hall
    rw [List.all_cons, Bool.and_eq_true] at hall
    have hop : setsFor name op = false := by simpa using hall.1
    obtain ⟨he, hh⟩ := quiet_step hop h
    obtain ⟨he2, hh2⟩ := ih _ hh hall.2
    refine ⟨?_, ?_⟩
    · rw [deliveries, emitsFor_append, he, he2]
      rfl
    · simpa [runOps] using hh2

theorem storeNoUndef_storeSet {V : Type} (st : Store V) (n : String) (v : Option V)
    (h : storeNoUndef st = true) (hv : v.isSome = true) :
    storeNoUndef (storeSet st n v) = true := by
  induction st with
  | nil => simp [storeNoUndef, storeSet, hv]
  | cons p rest ih =>
    obtain ⟨k, w⟩ := p
    rw [storeNoUndef, List.all_cons, Bool.and_eq_true] at h
    by_cases hk : k = n
    · simp [storeNoUndef, storeSet, hk, hv]
      simpa [storeNoUndef] using h.2
    · simp [storeNoUndef, storeSet, hk, h.1]
      simpa [storeNoUndef] using ih (by simpa [storeNoUndef] using h.2)

theorem storeNoUndef_storeDelete {V : Type} (st : Store V) (n : String)
    (h : storeNoUndef st = true) : storeNoUndef (storeDelete st n) = true := by
  induction st with
  | nil => rfl
  | cons p rest ih =>
    obtain ⟨k, w⟩ := p
    rw [storeNoUndef, List.all_cons, Bool.and_eq_true] at h
    by_cases hk : k = n
    · simpa [storeDelete, hk, storeNoUndef] using h.2
    · simp [storeNoUndef, storeDelete, hk, h.1]
      simpa [storeNoUndef] using ih h.2

theorem storeNoUndef_step {V : Type} (s : Svc V) (op : Op V)
    (h : storeNoUndef s.store = true) : storeNoUndef ((step s op).1.store) = true := by
  cases op with
  | getOrSet n value =>
    cases value with
    | none => exact h
    | some v => simpa [step, stateValue] using storeNoUndef_storeSet s.store n (some v) h rfl
  | mkStream n b iv =>
    cases iv with
    | none => exact h
    | some v =>
      by_cases hs : hasStateValue s n
      · simpa [step, hs] using h
      · have hs2 : (storeGet s.store n).isSome = false := by
          simpa [hasStateValue] using hs
        simpa [step, stateValue, hasStateValue, hs2] using
          storeNoUndef_storeSet s.store n (some v) h rfl
  | remove n =>
    simpa [step, removeStateValue] using storeNoUndef_storeDelete s.store n h
  | clear => rfl
  | teardown => rfl

theorem storeNoUndef_runOps {V : Type} (s : Svc V) (ops : List (Op V))
    (h : storeNoUndef s.store = true) : storeNoUndef ((runOps s ops).store) = true := by
  induction ops generalizing s with
  | nil => exact h
  | cons op rest ih => exact ih _ (storeNoUndef_step s op h)

theorem storeGet_eq_none_of_not_mem {V : Type} (st : Store V) (n : String)
    (h : n ∉ st.map Prod.fst) : storeGet st n = none := by
  induction st with
  | nil => rfl
  | cons p rest ih =>
    obtain ⟨k, w⟩ := p
    simp only [List.map_cons, List.mem_cons] at h
    push_neg at h
    simp [storeGet, Ne.symm h.1, ih h.2]

theorem mem_keys_storeSet {V : Type} (st : Store V) (n : String) (v : Option V)
    (m : String) (h : m ∈ (storeSet st n v).map Prod.fst) :
    m = n ∨ m ∈ st.map Prod.fst := by
  induction st with
  | nil => simpa [storeSet] using h
  | cons p rest ih =>
    obtain ⟨k, w⟩ := p
    by_cases hk : k = n
    · simpa [storeSet, hk] using h
    · simp only [storeSet, hk, if_false, List.map_cons, List.mem_cons] at h
      rcases h with h | h
      · simp [h]
      · rcases ih h with h2 | h2
        · exact Or.inl h2
        · simp [h2]

theorem nodup_keys_storeSet {V : Type} (st : Store V) (n : String) (v : Option V)
    (h : (st.map Prod.fst).Nodup) : ((storeSet st n v).map Prod.fst).Nodup := by
  induction st with
  | nil => simp [storeSet]
  | cons p rest ih =>
    obtain ⟨k, w⟩ := p
    simp only [List.map_cons, List.nodup_cons] at h
    by_cases hk : k = n
    · simpa [storeSet, hk, List.nodup_cons] using h
    · simp only [storeSet, hk, if_false, List.map_cons, List.nodup_cons]
      refine ⟨?_, ih h.2⟩
      intro hmem
      rcases mem_keys_storeSet rest n v k hmem with h2 | h2
      · exact hk h2
      · exact h.1 h2

theorem mem_keys_storeDelete {V : Type} (st : Store V) (n : String)
    (m : String) (h : m ∈ (storeDelete st n).map Prod.fst) :
    m ∈ st.map Prod.fst := by
  induction st with
  | nil => simp [storeDelete] at h
  | cons p rest ih =>
    obtain ⟨k, w⟩ := p
    by_cases hk : k = n
    · simp only [storeDelete, hk, if_true] at h
      simp [h]
    · simp only [storeDelete, hk, if_false, List.map_cons, List.mem_cons] at h
      rcases h with h | h
      · simp [h]
      · simp [ih h]

theorem nodup_keys_storeDelete {V : Type} (st : Store V) (n : String)
    (h : (st.map Prod.fst).Nodup) : ((storeDelete st n).map Prod.fst).Nodup := by
  induction st with
  | nil => simp [storeDelete]
  | cons p rest ih =>
    obtain ⟨k, w⟩ := p
    simp only [List.map_cons, List.nodup_cons] at h
    by_cases hk : k = n
    · simpa [storeDelete, hk] using h.2
    · simp only [storeDelete, hk, if_false, List.map_cons, List.nodup_cons]
      exact ⟨fun hmem => h.1 (mem_keys_storeDelete rest n k hmem), ih h.2⟩

theorem storeGet_storeDelete_self {V : Type} (st : Store V) (n : String)
    (h : (st.map Prod.fst).Nodup) : storeGet (storeDelete st n) n = none := by
  induction st with
  | nil => rfl
  | cons p rest ih =>
    obtain ⟨k, w⟩ := p
    simp only [List.map_cons, List.nodup_cons] at h
    by_cases hk : k = n
    · subst hk
      simp only [storeDelete, if_true]
      exact storeGet_eq_none_of_not_mem rest k h.1
    · simp [storeGet, storeDelete, hk, ih h.2]

theorem nodup_keys_step {V : Type} (s : Svc V) (op : Op V)
    (h : (s.store.map Prod.fst).Nodup) :
    (((step s op).1.store).map Prod.fst).Nodup := by
  cases op with
  | getOrSet n value =>
    cases value with
    | none => exact h
    | some v => simpa [step, stateValue] using nodup_keys_storeSet s.store n (some v) h
  | mkStream n b iv =>
    cases iv with
    | none => exact h
    | some v =>
      by_cases hs : hasStateValue s n
      · simpa [step, hs] using h
      · have hs2 : (storeGet s.store n).isSome = false := by
          simpa [hasStateValue] using hs
        simpa [step, stateValue, hasStateValue, hs2] using
          nodup_keys_storeSet s.store n (some v) h
  | remove n =>
    simpa [step, removeStateValue] using nodup_keys_storeDelete s.store n h
  | clear => simp [step, clearStateValues]
  | teardown => simp [step, clearStateValues, completeNotifier]

theorem nodup_keys_runOps {V : Type} (ops : List (Op V)) :
    (((runOps (initSvc : Svc V) ops).store).map Prod.fst).Nodup := by
  have base : ∀ (s : Svc V), (s.store.map Prod.fst).Nodup →
      (((runOps s ops).store).map Prod.fst).Nodup := by
    induction ops with
    | nil => exact fun s h => h
    | cons op rest ih => exact fun s h => ih _ (nodup_keys_step s op h)
  exact base initSvc (by simp [initSvc])

/-- C1: a subscriber of `stateValue$(name)` derived from a fresh service with
no prior set and no `initialValue` receives nothing over any trace that never
sets `name` (and does not tear down), and over such a trace followed by the
first `set(name, v)` receives exactly the one emission `v`. -/
theorem C1_silent_until_first_set {V : Type} (name : String) (v : V)
    (opsA : List (Op V))
    (h : (opsA.all fun op => !(setsFor name op) && !(isTeardown op)) = true) :
    subEmits (initSvc : Svc V) name opsA = [] ∧
    subEmits (initSvc : Svc V) name (opsA ++ [Op.getOrSet name (some v)]) = [some v] := by
  have hsets : (opsA.all fun op => !(setsFor name op)) = true := by
    rw [List.all_eq_true] at h ⊢
    intro op hop
    have h2 := h op hop
    rw [Bool.and_eq_true] at h2
    exact h2.1
  have htd : (opsA.all fun op => !(isTeardown op)) = true := by
    rw [List.all_eq_true] at h ⊢
    intro op hop
    have h2 := h op hop
    rw [Bool.and_eq_true] at h2
    exact h2.2
  have h0 : hasStateValue (initSvc : Svc V) name = false := rfl
  obtain ⟨he, -⟩ := quiet_trace name opsA initSvc h0 hsets
  have hclosed : (runOps (initSvc : Svc V) opsA).closed = false := by
    rw [runOps_closed_of_no_teardown _ _ htd]
    rfl
  constructor
  · simp [subEmits, triggerEmit, h0, he]
  · rw [subEmits, deliveries_append, emitsFor_append, he]
    have hstep : emitsFor name (deliveries (runOps (initSvc : Svc V) opsA)
        [Op.getOrSet name (some v)]) = [some v] := by
      simp [deliveries, step, stateValue, hclosed, emitsFor, triggerEmit,
        hasStateValue, storeGet_storeSet_self]
    rw [hstep]
    simp [triggerEmit, h0]

/-- Witness for C1: a concrete quiet prefix, then the first set of "x". -/
theorem C1_witness :
    (([Op.getOrSet "y" (some 1), Op.remove "x", Op.clear] : List (Op Nat)).all
        fun op => !(setsFor "x" op) && !(isTeardown op)) = true ∧
    subEmits (initSvc : Svc Nat) "x"
      [Op.getOrSet "y" (some 1), Op.remove "x", Op.clear] = [] ∧
    subEmits (initSvc : Svc Nat) "x"
      ([Op.getOrSet "y" (some 1), Op.remove "x", Op.clear]
        ++ [Op.getOrSet "x" (some 5)]) = [some 5] :=
  ⟨by decide,
   (C1_silent_until_first_set "x" 5 _ (by decide)).1,
   (C1_silent_until_first_set "x" 5 _ (by decide)).2⟩

/-- C2: after `set(name, v1)` then `set(name, v2)`, a subscriber attaching to
a freshly derived default stream before any further set immediately receives
exactly one emission, `v2` (not `v1` then `v2`, and not nothing). -/
theorem C2_late_subscriber_gets_latest {V : Type} (name : String) (v1 v2 : V) :
    subEmits (runOps (initSvc : Svc V)
        [Op.getOrSet name (some v1), Op.getOrSet name (some v2)]) name []
      = [some v2] := by
  simp [subEmits, runOps, step, stateValue, initSvc, storeSet, triggerEmit,
    hasStateValue, storeGet, deliveries, emitsFor]

/-- C3: teardown is the registered onDestroy callback, completing the notifier
first and then clearing the store; afterwards the notifier is closed, the
store is empty, `hasStateValue` is false for every name, a repeated teardown
changes nothing, no notification is ever delivered again over any continuation
trace, and a derived-stream subscriber receives no further emission. -/
theorem C3_teardown_closes_then_clears {V : Type} (s : Svc V) (name : String)
    (ops : List (Op V)) :
    (step s Op.teardown).1 = clearStateValues (completeNotifier s) ∧
    (step s Op.teardown).1.closed = true ∧
    (step s Op.teardown).1.store = [] ∧
    hasStateValue (step s Op.teardown).1 name = false ∧
    step (step s Op.teardown).1 Op.teardown = ((step s Op.teardown).1, []) ∧
    deliveries (step s Op.teardown).1 ops = [] ∧
    subEmits (step s Op.teardown).1 name ops = [] := by
  refine ⟨rfl, rfl, rfl, rfl, rfl, ?_, ?_⟩
  · exact deliveries_of_closed _ _ rfl
  · rw [subEmits, deliveries_of_closed _ _ rfl]
    rfl

/-- C4: constructing `stateValue$` with an explicit buffer of 0 does not yield
a working broadcast stream: the falsy buffer makes the source pass `undefined`
to `pipe`, and building the pipeline fails with a TypeError. -/
theorem C4_buffer_zero_pipe_error {V : Type} (s : Svc V) (name : String)
    (iv : Option V) :
    (stateValueStream s name (some 0) iv).1
      = Except.error "TypeError: fn is not a function" := rfl

/-- C5 as stated is false: a set after teardown does leave an observable value
in the store; at this concrete input `has` becomes true after a post-teardown
set. -/
theorem C5_counterexample :
    hasStateValue (runOps (initSvc : Svc Nat) [Op.teardown, Op.getOrSet "x" (some 5)])
      "x" = true := by decide

/-- C5 amended: after teardown the notifier is closed, so a post-teardown set
delivers no notification to any subscriber; but the write is not rejected: the
value is stored and `hasStateValue` becomes true for that name. -/
theorem C5_amended_post_teardown_set {V : Type} (s : Svc V) (name : String) (v : V)
    (h : s.closed = true) :
    (stateValue s name (some v)).2.2 = [] ∧
    hasStateValue ((stateValue s name (some v)).2.1) name = true := by
  constructor
  · simp [stateValue, h]
  · simp [stateValue, hasStateValue, storeGet_storeSet_self]

/-- Witness for the amended C5 at a concrete torn-down service. -/
theorem C5_amended_witness :
    (stateValue (runOps (initSvc : Svc Nat) [Op.teardown]) "x" (some 5)).2.2 = [] ∧
    hasStateValue ((stateValue (runOps (initSvc : Svc Nat) [Op.teardown]) "x"
      (some 5)).2.1) "x" = true :=
  C5_amended_post_teardown_set _ "x" 5 rfl

/-- C6 as stated is false: a subscriber attached to a previously constructed
stream for "x" (nothing set, hence silent so far) receives the emission 7
caused purely by another stream construction seeding `initialValue` 7. -/
theorem C6_counterexample :
    subEmits (initSvc : Svc Nat) "x" [Op.mkStream "x" 1 (some 7)] = [some 7] := by
  decide

/-- C6 amended: seeding an absent slot during stream construction goes through
the same set-and-notify path (`stateValue(name, initialValue)`), so a
subscriber of a previously constructed stream for that name does receive one
emission of the seeded value. -/
theorem C6_amended_seeding_notifies {V : Type} (s : Svc V) (name : String) (v : V)
    (b : Nat) (habs : hasStateValue s name = false) (hop : s.closed = false) :
    subEmits s name [Op.mkStream name b (some v)] = [some v] := by
  have hs2 : (storeGet s.store name).isSome = false := by
    simpa [hasStateValue] using habs
  simp [subEmits, deliveries, step, stateValue, hasStateValue, hs2, hop,
    emitsFor, triggerEmit, storeGet_storeSet_self]

/-- Witness for the amended C6. -/
theorem C6_amended_witness :
    subEmits (initSvc : Svc Nat) "y" [Op.mkStream "y" 2 (some 3)] = [some 3] :=
  C6_amended_seeding_notifies initSvc "y" 3 2 rfl rfl

/-- C7: in every reachable state of the service, no store entry is a stored
undefined: every operation (set, seeding, remove, clear, teardown) preserves
that absence of a value is represented only by absence of the key. -/
theorem C7_no_undefined_entry {V : Type} (ops : List (Op V)) :
    storeNoUndef ((runOps (initSvc : Svc V) ops).store) = true :=
  storeNoUndef_runOps initSvc ops rfl

/-- C8: `stateValueDistinct$` with the default equality (`Object.is`)
suppresses a re-emission of an identical value (same primitive value, same
object reference) but propagates a structurally equal object with a distinct
reference; a caller-supplied equality function is used instead when given. -/
theorem C8_distinct_default_is_identity (name : String) (i j : Nat) (c p : Int)
    (h : i ≠ j) :
    stateValueDistinctEmits objectIs none initSvc name
      [Op.getOrSet name (some (JsVal.ref i c)), Op.getOrSet name (some (JsVal.ref i c))]
      = [some (JsVal.ref i c)] ∧
    stateValueDistinctEmits objectIs none initSvc name
      [Op.getOrSet name (some (JsVal.prim p)), Op.getOrSet name (some (JsVal.prim p))]
      = [some (JsVal.prim p)] ∧
    stateValueDistinctEmits objectIs none initSvc name
      [Op.getOrSet name (some (JsVal.ref i c)), Op.getOrSet name (some (JsVal.ref j c))]
      = [some (JsVal.ref i c), some (JsVal.ref j c)] ∧
    stateValueDistinctEmits objectIs (some structEq) initSvc name
      [Op.getOrSet name (some (JsVal.ref i c)), Op.getOrSet name (some (JsVal.ref j c))]
      = [some (JsVal.ref i c)] := by
  have hij : (i == j) = false := by simpa using h
  refine ⟨?_, ?_, ?_, ?_⟩ <;>
    simp [stateValueDistinctEmits, subEmits, deliveries, runOps, step, stateValue,
      initSvc, storeSet, triggerEmit, hasStateValue, storeGet, emitsFor,
      distinctList, ducAux, optionEqFn, objectIs, structEq, hij]

/-- Witness for C8 at concrete references 0 and 1 with equal content. -/
theorem C8_witness :
    (0 : Nat) ≠ 1 ∧
    (stateValueDistinctEmits objectIs none initSvc "x"
      [Op.getOrSet "x" (some (JsVal.ref 0 4)), Op.getOrSet "x" (some (JsVal.ref 0 4))]
      = [some (JsVal.ref 0 4)] ∧
    stateValueDistinctEmits objectIs none initSvc "x"
      [Op.getOrSet "x" (some (JsVal.prim 9)), Op.getOrSet "x" (some (JsVal.prim 9))]
      = [some (JsVal.prim 9)] ∧
    stateValueDistinctEmits objectIs none initSvc "x"
      [Op.getOrSet "x" (some (JsVal.ref 0 4)), Op.getOrSet "x" (some (JsVal.ref 1 4))]
      = [some (JsVal.ref 0 4), some (JsVal.ref 1 4)] ∧
    stateValueDistinctEmits objectIs (some structEq) initSvc "x"
      [Op.getOrSet "x" (some (JsVal.ref 0 4)), Op.getOrSet "x" (some (JsVal.ref 1 4))]
      = [some (JsVal.ref 0 4)]) :=
  ⟨by decide, C8_distinct_default_is_identity "x" 0 1 4 9 (by decide)⟩

/-- C9: `removeStateValue(name)` produces no notifier delivery (existing
subscribers see nothing), leaves `hasStateValue(name)` false, removing again
when the entry is gone changes nothing (no-op when absent), and a stream for
`name` derived after the remove emits nothing over any continuation trace that
does not set `name` again. -/
theorem C9_remove_is_silent {V : Type} (ops0 : List (Op V)) (name : String)
    (ops : List (Op V)) (h : (ops.all fun op => !(setsFor name op)) = true) :
    (step (runOps (initSvc : Svc V) ops0) (Op.remove name)).2 = [] ∧
    hasStateValue (removeStateValue (runOps (initSvc : Svc V) ops0) name) name
      = false ∧
    removeStateValue (removeStateValue (runOps (initSvc : Svc V) ops0) name) name
      = removeStateValue (runOps (initSvc : Svc V) ops0) name ∧
    subEmits (removeStateValue (runOps (initSvc : Svc V) ops0) name) name ops = [] := by
  have hnd := nodup_keys_runOps (V := V) ops0
  have habs : hasStateValue (removeStateValue (runOps (initSvc : Svc V) ops0) name)
      name = false := by
    simp [removeStateValue, hasStateValue,
      storeGet_storeDelete_self _ _ hnd]
  refine ⟨rfl, habs, ?_, ?_⟩
  · have habs2 : storeGet (storeDelete ((runOps (initSvc : Svc V) ops0).store) name)
        name = none := storeGet_storeDelete_self _ _ hnd
    simp [removeStateValue, storeDelete_of_absent _ _ habs2]
  · obtain ⟨he, -⟩ := quiet_trace name ops _ habs h
    simp [subEmits, triggerEmit, habs, he]

/-- Witness for C9: remove "x" after setting it, then a quiet continuation. -/
theorem C9_witness :
    (([Op.getOrSet "y" (some 9), Op.remove "y"] : List (Op Nat)).all
        fun op => !(setsFor "x" op)) = true ∧
    ((step (runOps (initSvc : Svc Nat) [Op.getOrSet "x" (some 4)]) (Op.remove "x")).2
        = [] ∧
    hasStateValue (removeStateValue (runOps (initSvc : Svc Nat)
        [Op.getOrSet "x" (some 4)]) "x") "x" = false ∧
    removeStateValue (removeStateValue (runOps (initSvc : Svc Nat)
        [Op.getOrSet "x" (some 4)]) "x") "x"
      = removeStateValue (runOps (initSvc : Svc Nat) [Op.getOrSet "x" (some 4)]) "x" ∧
    subEmits (removeStateValue (runOps (initSvc : Svc Nat)
        [Op.getOrSet "x" (some 4)]) "x") "x"
      [Op.getOrSet "y" (some 9), Op.remove "y"] = []) :=
  ⟨by decide,
   C9_remove_is_silent [Op.getOrSet "x" (some 4)] "x"
     [Op.getOrSet "y" (some 9), Op.remove "y"] (by decide)⟩

/-- C10: the get-or-set accessor called in write mode with a defined value `v`
stores `v` and notifies, but returns `undefined` (`none`), not `v`; only the
no-argument read form returns the stored value. -/
theorem C10_write_returns_undefined {V : Type} (s : Svc V) (name : String)
    (v : V) (h : s.closed = false) :
    (stateValue s name (some v)).1 = none ∧
    storeGet ((stateValue s name (some v)).2.1).store name = some (some v) ∧
    (stateValue s name (some v)).2.2 = [(name, (stateValue s name (some v)).2.1)] ∧
    (stateValue ((stateValue s name (some v)).2.1) name none).1 = some v := by
  refine ⟨rfl, ?_, ?_, ?_⟩
  · simp [stateValue, storeGet_storeSet_self]
  · simp [stateValue, h]
  · simp [stateValue, storeGet_storeSet_self]

/-- Witness for C10 at a concrete write. -/
theorem C10_witness :
    (stateValue (initSvc : Svc Nat) "x" (some 5)).1 = none ∧
    storeGet ((stateValue (initSvc : Svc Nat) "x" (some 5)).2.1).store "x"
      = some (some 5) ∧
    (stateValue (initSvc : Svc Nat) "x" (some 5)).2.2
      = [("x", (stateValue (initSvc : Svc Nat) "x" (some 5)).2.1)] ∧
    (stateValue ((stateValue (initSvc : Svc Nat) "x" (some 5)).2.1) "x" none).1
      = some 5 :=
  C10_write_returns_undefined initSvc "x" 5 rfl

end DynState
